import Mathlib

/-!
Shallow embedding of the `ConnectionPool` class of `pep249.py`.

Handles (connections) are identified by natural numbers; the factory hands
out fresh identifiers `0, 1, 2, ...` in creation order.  The behaviour of the
external environment is captured by two parameters:

* `probe : Nat → ProbeResult` models `ensure_connection`'s interaction with a
  given handle — `ok` when `cursor()` succeeds and `cursor.execute("SELECT 1")`
  succeeds, `dead` when `execute` raises (so `ensure_connection` returns
  `False`), `cursorError` when `connection.cursor()` itself raises (the
  exception escapes `ensure_connection`, which has no handler around that
  call).
* `factoryOk : Nat → Bool` models whether the n-th invocation of
  `connection_factory` succeeds (`true`) or raises (`false`).

The pool state mirrors the Python object: `maxsize`, `_size` and the FIFO
`connection_queue` (put at the tail, get from the head, exactly like
`queue.Queue`).  Three ghost fields record observable history: `factoryCalls`
(number of factory invocations, also the next fresh handle id), `checkedOut`
(handles handed to callers and not yet released), `closed` (handles on which
`close()` was invoked) and `releaseCalls` (number of `release` invocations).

Blocking calls (`Queue.get(block=True)` on an empty queue, reached either in
`acquire` when the pool is at capacity or in `clear` while handles are still
checked out) are modelled by explicit `blocked` outcomes: in this sequential
model a blocked call never completes.  The recursion in `acquire` is modelled
with explicit fuel; `outOfFuel` marks a run that did not terminate within the
given fuel.
-/

inductive ProbeResult
  | ok
  | dead
  | cursorError
  deriving DecidableEq

structure ConnectionPool where
  maxsize : Nat
  size : Nat
  connection_queue : List Nat
  factoryCalls : Nat
  checkedOut : List Nat
  closed : List Nat
  releaseCalls : Nat
  deriving DecidableEq

/-- A freshly constructed pool (`ConnectionPool.__init__`): counter at zero,
empty queue, and no factory invocation has happened. -/
def mkPool (maxsize : Nat) : ConnectionPool :=
  { maxsize := maxsize
    size := 0
    connection_queue := []
    factoryCalls := 0
    checkedOut := []
    closed := []
    releaseCalls := 0 }

/-- `ConnectionPool.ensure_connection`: `connection.cursor()` may raise
(`Except.error`), otherwise `cursor.execute("SELECT 1")` either succeeds
(return `True`) or raises (caught, return `False`). -/
def ensure_connection (probe : Nat → ProbeResult) (c : Nat) : Except Unit Bool :=
  match probe c with
  | ProbeResult.cursorError => Except.error ()
  | ProbeResult.ok => Except.ok true
  | ProbeResult.dead => Except.ok false

/-- Outcome of the locked `Queue.get` / factory section at the top of
`acquire`. -/
inductive StepResult
  | got (c : Nat) (p : ConnectionPool)
  | created (c : Nat) (p : ConnectionPool)
  | blocked (p : ConnectionPool)
  | factoryError (p : ConnectionPool)
  deriving DecidableEq

def StepResult.pool : StepResult → ConnectionPool
  | .got _ p | .created _ p | .blocked p | .factoryError p => p

/-- The body of `with self._sync_lock:` at the top of `acquire`:
`connection_queue.get(block=self.size >= self.maxsize)`; a non-empty queue
yields its head either way; an empty queue blocks when `size >= maxsize` and
otherwise raises `Empty`, upon which `connection_factory()` runs and, if it
returns, `size` is incremented. -/
def acquireStep (factoryOk : Nat → Bool) (p : ConnectionPool) : StepResult :=
  match p.connection_queue with
  | c :: rest => StepResult.got c { p with connection_queue := rest }
  | [] =>
    if p.size ≥ p.maxsize then
      StepResult.blocked p
    else if factoryOk p.factoryCalls then
      StepResult.created p.factoryCalls
        { p with size := p.size + 1, factoryCalls := p.factoryCalls + 1 }
    else
      StepResult.factoryError { p with factoryCalls := p.factoryCalls + 1 }

inductive AcquireResult
  | ok (c : Nat) (p : ConnectionPool)
  | blocked (p : ConnectionPool)
  | factoryError (p : ConnectionPool)
  | cursorError (p : ConnectionPool)
  | outOfFuel (p : ConnectionPool)
  deriving DecidableEq

def AcquireResult.pool : AcquireResult → ConnectionPool
  | .ok _ p | .blocked p | .factoryError p | .cursorError p | .outOfFuel p => p

/-- `ConnectionPool.acquire`, with explicit fuel for the recursive retry.
After the locked get/create step the handle is validated with
`ensure_connection`; on `False` the code runs `self.size -= 1` and retries by
recursion (`connection = self.acquire()`), without closing the dead handle;
an exception out of `ensure_connection` propagates. -/
def acquire (probe : Nat → ProbeResult) (factoryOk : Nat → Bool) :
    Nat → ConnectionPool → AcquireResult
  | 0, p => AcquireResult.outOfFuel p
  | fuel + 1, p =>
    match acquireStep factoryOk p with
    | StepResult.blocked p1 => AcquireResult.blocked p1
    | StepResult.factoryError p1 => AcquireResult.factoryError p1
    | StepResult.got c p1 | StepResult.created c p1 =>
      match ensure_connection probe c with
      | Except.error _ => AcquireResult.cursorError p1
      | Except.ok true =>
          AcquireResult.ok c { p1 with checkedOut := c :: p1.checkedOut }
      | Except.ok false =>
          acquire probe factoryOk fuel { p1 with size := p1.size - 1 }

inductive ReleaseResult
  | ok (p : ConnectionPool)
  | full (p : ConnectionPool)
  deriving DecidableEq

def ReleaseResult.pool : ReleaseResult → ConnectionPool
  | .ok p | .full p => p

/-- `ConnectionPool.release`: `connection_queue.put(connection, block=False)`.
`queue.Queue(maxsize)` is full exactly when `0 < maxsize` and the queue holds
`maxsize` items, in which case `put` raises `Full`; otherwise the connection
is appended at the tail.  `size` is untouched. -/
def release (c : Nat) (p : ConnectionPool) : ReleaseResult :=
  if 0 < p.maxsize ∧ p.maxsize ≤ p.connection_queue.length then
    ReleaseResult.full { p with releaseCalls := p.releaseCalls + 1 }
  else
    ReleaseResult.ok
      { p with connection_queue := p.connection_queue ++ [c]
               checkedOut := p.checkedOut.erase c
               releaseCalls := p.releaseCalls + 1 }

/-- How the caller's scope inside `with pool.connect() as connection:` exits. -/
inductive Outcome
  | normal
  | raised
  deriving DecidableEq

inductive ConnectResult
  | ok (c : Nat) (p : ConnectionPool)
  | bodyError (p : ConnectionPool)
  | releaseFull (p : ConnectionPool)
  | acquireFailed (r : AcquireResult)
  deriving DecidableEq

def ConnectResult.pool : ConnectResult → ConnectionPool
  | .ok _ p | .bodyError p | .releaseFull p => p
  | .acquireFailed r => r.pool

/-- `ConnectionPool.connect`: `acquire`, run the caller's body (which either
completes or raises), and in a `finally` block `release` the connection;
a body exception then propagates out of the scope. -/
def connect (probe : Nat → ProbeResult) (factoryOk : Nat → Bool)
    (fuel : Nat) (body : Outcome) (p : ConnectionPool) : ConnectResult :=
  match acquire probe factoryOk fuel p with
  | AcquireResult.ok c p1 =>
    match release c p1, body with
    | ReleaseResult.ok p2, Outcome.normal => ConnectResult.ok c p2
    | ReleaseResult.ok p2, Outcome.raised => ConnectResult.bodyError p2
    | ReleaseResult.full p2, _ => ConnectResult.releaseFull p2
  | r => ConnectResult.acquireFailed r

inductive ClearResult
  | done (p : ConnectionPool)
  | blocked (p : ConnectionPool)
  deriving DecidableEq

def ClearResult.pool : ClearResult → ConnectionPool
  | .done p | .blocked p => p

/-- Loop body of `clear`: `while self.size > 0: connection_queue.get().close();
self.size -= 1`.  A `get` on an empty queue blocks forever (`blocked`).  Each
iteration pops one handle and decrements `size` by one, so `size` many
iterations always suffice and the fuel is only a structural-recursion device. -/
def clearGo : Nat → ConnectionPool → ClearResult
  | 0, p => if p.size = 0 then ClearResult.done p else ClearResult.blocked p
  | fuel + 1, p =>
    if p.size = 0 then ClearResult.done p
    else
      match p.connection_queue with
      | [] => ClearResult.blocked p
      | c :: rest =>
        clearGo fuel
          { p with size := p.size - 1, connection_queue := rest, closed := c :: p.closed }

/-- `ConnectionPool.clear`. -/
def clear (p : ConnectionPool) : ClearResult :=
  clearGo p.size p

/-- A single pool operation issued by a (well-behaved) client: `acquire`,
`release` of the i-th currently checked-out handle, or `clear`. -/
inductive Op
  | acquire
  | release (i : Nat)
  | clear
  deriving DecidableEq

/-- Run one client operation, keeping the pool state of whichever outcome the
operation had (a blocked or failed call leaves the state it reached). A
`release` of an index that names no checked-out handle is a no-op. -/
def runOp (probe : Nat → ProbeResult) (factoryOk : Nat → Bool) (fuel : Nat) :
    Op → ConnectionPool → ConnectionPool
  | Op.acquire, p => (acquire probe factoryOk fuel p).pool
  | Op.release i, p =>
    match p.checkedOut[i]? with
    | some c => (release c p).pool
    | none => p
  | Op.clear, p => (clear p).pool

def runOps (probe : Nat → ProbeResult) (factoryOk : Nat → Bool) (fuel : Nat) :
    List Op → ConnectionPool → ConnectionPool
  | [], p => p
  | op :: ops, p => runOps probe factoryOk fuel ops (runOp probe factoryOk fuel op p)

/-- The pool's accounting invariant: `size` equals checked-out plus idle
handles and never exceeds `maxsize`. -/
def PoolInv (p : ConnectionPool) : Prop :=
  p.size = p.checkedOut.length + p.connection_queue.length ∧ p.size ≤ p.maxsize

instance (p : ConnectionPool) : Decidable (PoolInv p) := by
  unfold PoolInv; infer_instance

/-- Environment in which every handle validates successfully. -/
def probeAllOk : Nat → ProbeResult := fun _ => ProbeResult.ok

/-- Environment in which every handle fails validation. -/
def probeAllDead : Nat → ProbeResult := fun _ => ProbeResult.dead

/-- Factory that never raises. -/
def factoryAllOk : Nat → Bool := fun _ => true

example : acquire probeAllOk factoryAllOk 1 (mkPool 2) =
    AcquireResult.ok 0 { mkPool 2 with size := 1, factoryCalls := 1, checkedOut := [0] } := by
  decide

/-! ### Helper lemmas -/

theorem acquire_pool_ghost (probe : Nat → ProbeResult) (factoryOk : Nat → Bool) :
    ∀ (fuel : Nat) (p : ConnectionPool),
      (acquire probe factoryOk fuel p).pool.closed = p.closed ∧
      (acquire probe factoryOk fuel p).pool.releaseCalls = p.releaseCalls ∧
      (acquire probe factoryOk fuel p).pool.maxsize = p.maxsize := by
  intro fuel
  induction fuel with
  | zero => intro p; exact ⟨rfl, rfl, rfl⟩
  | succ fuel ih =>
    intro p
    cases hq : p.connection_queue with
    | cons c rest =>
      cases hpc : probe c with
      | ok =>
        simp [acquire, acquireStep, hq, ensure_connection, hpc, AcquireResult.pool]
      | dead =>
        have h := ih { p with connection_queue := rest, size := p.size - 1 }
        simp [acquire, acquireStep, hq, ensure_connection, hpc] at h ⊢
        exact h
      | cursorError =>
        simp [acquire, acquireStep, hq, ensure_connection, hpc, AcquireResult.pool]
    | nil =>
      by_cases hs : p.maxsize ≤ p.size
      · simp [acquire, acquireStep, hq, hs, AcquireResult.pool]
      · by_cases hf : factoryOk p.factoryCalls
        · cases hpc : probe p.factoryCalls with
          | ok =>
            simp [acquire, acquireStep, hq, hs, hf, ensure_connection, hpc, AcquireResult.pool]
          | dead =>
            have h := ih { p with size := p.size + 1 - 1,
                                  factoryCalls := p.factoryCalls + 1 }
            simp [acquire, acquireStep, hq, hs, hf, ensure_connection, hpc] at h ⊢
            exact h
          | cursorError =>
            simp [acquire, acquireStep, hq, hs, hf, ensure_connection, hpc, AcquireResult.pool]
        · simp [acquire, acquireStep, hq, hs, hf, AcquireResult.pool]

theorem acquire_ok_probe_aux (probe : Nat → ProbeResult) (factoryOk : Nat → Bool) :
    ∀ (fuel : Nat) (p : ConnectionPool) (c : Nat) (p' : ConnectionPool),
      acquire probe factoryOk fuel p = AcquireResult.ok c p' → probe c = ProbeResult.ok := by
  intro fuel
  induction fuel with
  | zero => intro p c p' h; simp [acquire] at h
  | succ fuel ih =>
    intro p c p' h
    cases hq : p.connection_queue with
    | cons d rest =>
      cases hpc : probe d with
      | ok =>
        simp [acquire, acquireStep, hq, ensure_connection, hpc] at h
        obtain ⟨rfl, -⟩ := h
        exact hpc
      | dead =>
        simp [acquire, acquireStep, hq, ensure_connection, hpc] at h
        exact ih _ _ _ h
      | cursorError =>
        simp [acquire, acquireStep, hq, ensure_connection, hpc] at h
    | nil =>
      by_cases hs : p.maxsize ≤ p.size
      · simp [acquire, acquireStep, hq, hs] at h
      · by_cases hf : factoryOk p.factoryCalls
        · cases hpc : probe p.factoryCalls with
          | ok =>
            simp [acquire, acquireStep, hq, hs, hf, ensure_connection, hpc] at h
            obtain ⟨rfl, -⟩ := h
            exact hpc
          | dead =>
            simp [acquire, acquireStep, hq, hs, hf, ensure_connection, hpc] at h
            exact ih _ _ _ h
          | cursorError =>
            simp [acquire, acquireStep, hq, hs, hf, ensure_connection, hpc] at h
        · simp [acquire, acquireStep, hq, hs, hf] at h

/-! ### Claim theorems -/

/-- C3: every handle `acquire` returns to its caller has passed the liveness
probe (`ensure_connection` succeeded with `True` — the trivial no-op request
succeeded without raising) during that call; contrapositively, a handle whose
probe fails is never returned. -/
theorem acquire_returns_validated (probe : Nat → ProbeResult) (factoryOk : Nat → Bool)
    (fuel : Nat) (p : ConnectionPool) (c : Nat) (p' : ConnectionPool)
    (h : acquire probe factoryOk fuel p = AcquireResult.ok c p') :
    ensure_connection probe c = Except.ok true := by
  simp [ensure_connection, acquire_ok_probe_aux probe factoryOk fuel p c p' h]

def poolC3 : ConnectionPool := { mkPool 2 with size := 1, connection_queue := [7] }

theorem acquire_returns_validated_witness :
    ensure_connection probeAllOk 7 = Except.ok true :=
  acquire_returns_validated probeAllOk factoryAllOk 1 poolC3 7
    { poolC3 with connection_queue := [], checkedOut := [7] } (by decide)

/-- C4: when `acquire` reaches the factory (idle buffer empty, size below
capacity) and the factory raises, the exception propagates to the caller and
the outstanding count is unchanged — the increment after the factory call is
never executed. -/
theorem acquire_factory_failure_propagates (probe : Nat → ProbeResult)
    (factoryOk : Nat → Bool) (fuel : Nat) (p : ConnectionPool)
    (hq : p.connection_queue = []) (hs : p.size < p.maxsize)
    (hf : factoryOk p.factoryCalls = false) :
    acquire probe factoryOk (fuel + 1) p =
      AcquireResult.factoryError { p with factoryCalls := p.factoryCalls + 1 } ∧
    (acquire probe factoryOk (fuel + 1) p).pool.size = p.size := by
  have hstep : acquireStep factoryOk p =
      StepResult.factoryError { p with factoryCalls := p.factoryCalls + 1 } := by
    simp [acquireStep, hq, Nat.not_le.mpr hs, hf]
  constructor <;> simp [acquire, hstep, AcquireResult.pool]

def poolC4 : ConnectionPool := mkPool 3

def factoryAllFail : Nat → Bool := fun _ => false

theorem acquire_factory_failure_propagates_witness :
    acquire probeAllOk factoryAllFail 1 poolC4 =
      AcquireResult.factoryError { poolC4 with factoryCalls := 1 } ∧
    (acquire probeAllOk factoryAllFail 1 poolC4).pool.size = poolC4.size :=
  acquire_factory_failure_propagates probeAllOk factoryAllFail 0 poolC4
    (by decide) (by decide) (by decide)

/-- C5: one locked get-or-create step of `acquire` invokes the factory (the
factory-invocation counter advances) precisely when the idle buffer is empty
and the outstanding count is strictly below capacity; and a freshly
constructed pool has count 0, an empty buffer, and zero factory calls. -/
theorem factory_invocation_iff_empty_and_below_capacity (factoryOk : Nat → Bool)
    (p : ConnectionPool) (mx : Nat) :
    ((acquireStep factoryOk p).pool.factoryCalls = p.factoryCalls + 1 ↔
      p.connection_queue = [] ∧ p.size < p.maxsize) ∧
    (mkPool mx).size = 0 ∧ (mkPool mx).connection_queue = [] ∧
    (mkPool mx).factoryCalls = 0 := by
  refine ⟨?_, rfl, rfl, rfl⟩
  cases hq : p.connection_queue with
  | cons c rest => simp [acquireStep, hq, StepResult.pool]
  | nil =>
    by_cases hs : p.maxsize ≤ p.size
    · simp [acquireStep, hq, hs, StepResult.pool]
    · by_cases hf : factoryOk p.factoryCalls <;>
        simp [acquireStep, hq, hs, hf, StepResult.pool] <;> omega

def probeFiveDead : Nat → ProbeResult :=
  fun c => if c = 5 then ProbeResult.dead else ProbeResult.ok

def poolC2 : ConnectionPool :=
  { maxsize := 1, size := 1, connection_queue := [5], factoryCalls := 0,
    checkedOut := [], closed := [], releaseCalls := 0 }

/-- C2 counterexample: handle 5 sits idle, its probe fails during this
`acquire`, the call transparently retries and returns a fresh handle — yet the
set of closed handles stays empty: the dead handle is never closed, refuting
the "closes that handle" part of the claim. -/
theorem acquire_dead_handle_not_closed_cex :
    probeFiveDead 5 = ProbeResult.dead ∧
    poolC2.connection_queue = [5] ∧
    acquire probeFiveDead factoryAllOk 2 poolC2 =
      AcquireResult.ok 0
        { poolC2 with connection_queue := [], factoryCalls := 1, checkedOut := [0] } ∧
    (acquire probeFiveDead factoryAllOk 2 poolC2).pool.closed = [] := by
  refine ⟨rfl, rfl, ?_, ?_⟩ <;> decide

/-- C2 (amended): whenever the validation probe of a handle obtained inside
`acquire` fails — whether the handle was popped from the idle buffer or just
created by the factory — `acquire` decrements the outstanding count, retries
the whole acquisition from the top, and does not surface the failure to the
caller; the dead handle is abandoned without being closed (`acquire` never
closes any handle). -/
theorem acquire_dead_handle_discard_retry (probe : Nat → ProbeResult)
    (factoryOk : Nat → Bool) (fuel : Nat) (p : ConnectionPool) :
    (∀ c rest, p.connection_queue = c :: rest → probe c = ProbeResult.dead →
      acquire probe factoryOk (fuel + 1) p =
        acquire probe factoryOk fuel
          { p with connection_queue := rest, size := p.size - 1 }) ∧
    (p.connection_queue = [] → p.size < p.maxsize →
      factoryOk p.factoryCalls = true → probe p.factoryCalls = ProbeResult.dead →
      acquire probe factoryOk (fuel + 1) p =
        acquire probe factoryOk fuel
          { p with size := p.size + 1 - 1,
                   factoryCalls := p.factoryCalls + 1 }) ∧
    ∀ (f : Nat) (q : ConnectionPool),
      (acquire probe factoryOk f q).pool.closed = q.closed := by
  refine ⟨?_, ?_, ?_⟩
  · intro c rest hq hd
    simp [acquire, acquireStep, hq, ensure_connection, hd]
  · intro hq hs hf hd
    simp [acquire, acquireStep, hq, Nat.not_le.mpr hs, hf, ensure_connection, hd]
  · intro f q
    exact (acquire_pool_ghost probe factoryOk f q).1

def poolC2b : ConnectionPool := { mkPool 1 with factoryCalls := 5 }

theorem acquire_dead_handle_discard_retry_witness :
    acquire probeFiveDead factoryAllOk 2 poolC2 =
      acquire probeFiveDead factoryAllOk 1
        { poolC2 with connection_queue := [], size := poolC2.size - 1 } ∧
    acquire probeFiveDead factoryAllOk 1 poolC2b =
      acquire probeFiveDead factoryAllOk 0
        { poolC2b with size := poolC2b.size + 1 - 1,
                       factoryCalls := poolC2b.factoryCalls + 1 } ∧
    (acquire probeFiveDead factoryAllOk 3 poolC2b).pool.closed = poolC2b.closed :=
  ⟨(acquire_dead_handle_discard_retry probeFiveDead factoryAllOk 1 poolC2).1 5 []
      (by decide) (by decide),
   (acquire_dead_handle_discard_retry probeFiveDead factoryAllOk 0 poolC2b).2.1
      (by decide) (by decide) (by decide) (by decide),
   (acquire_dead_handle_discard_retry probeFiveDead factoryAllOk 0 poolC2b).2.2
      3 poolC2b⟩

/-- C8: a handle released into an otherwise-empty idle buffer that then passes
validation is exactly the one returned by the next `acquire`, with no factory
invocation in between. -/
theorem release_then_acquire_roundtrip (probe : Nat → ProbeResult)
    (factoryOk : Nat → Bool) (fuel : Nat) (p : ConnectionPool) (h : Nat)
    (hq : p.connection_queue = []) (hok : probe h = ProbeResult.ok) :
    ∃ p1, release h p = ReleaseResult.ok p1 ∧
      p1.connection_queue = [h] ∧
      acquire probe factoryOk (fuel + 1) p1 =
        AcquireResult.ok h
          { p1 with connection_queue := [], checkedOut := h :: p1.checkedOut } ∧
      p1.factoryCalls = p.factoryCalls ∧
      ({ p1 with connection_queue := [],
                 checkedOut := h :: p1.checkedOut }).factoryCalls = p.factoryCalls := by
  have hnotfull : ¬(0 < p.maxsize ∧ p.maxsize ≤ p.connection_queue.length) := by
    rw [hq]; simp; omega
  refine ⟨{ p with connection_queue := p.connection_queue ++ [h],
                   checkedOut := p.checkedOut.erase h,
                   releaseCalls := p.releaseCalls + 1 }, ?_, ?_, ?_, rfl, rfl⟩
  · simp [release, hnotfull]
  · simp [hq]
  · simp [acquire, acquireStep, hq, ensure_connection, hok]

def poolC8 : ConnectionPool := { mkPool 3 with size := 1, checkedOut := [9] }

theorem release_then_acquire_roundtrip_witness :
    ∃ p1, release 9 poolC8 = ReleaseResult.ok p1 ∧
      p1.connection_queue = [9] ∧
      acquire probeAllOk factoryAllOk 1 p1 =
        AcquireResult.ok 9
          { p1 with connection_queue := [], checkedOut := 9 :: p1.checkedOut } ∧
      p1.factoryCalls = poolC8.factoryCalls ∧
      ({ p1 with connection_queue := [],
                 checkedOut := 9 :: p1.checkedOut }).factoryCalls = poolC8.factoryCalls :=
  release_then_acquire_roundtrip probeAllOk factoryAllOk 0 poolC8 9
    (by decide) (by decide)

theorem acquire_dead_outOfFuel_aux :
    ∀ (n k : Nat),
      acquire probeAllDead factoryAllOk n { mkPool 1 with factoryCalls := k } =
        AcquireResult.outOfFuel { mkPool 1 with factoryCalls := k + n } := by
  intro n
  induction n with
  | zero => intro k; simp [acquire]
  | succ n ih =>
    intro k
    have h := ih (k + 1)
    have harith : k + 1 + n = k + (n + 1) := by omega
    rw [harith] at h
    simp [acquire, acquireStep, mkPool, factoryAllOk, ensure_connection, probeAllDead]
    simpa [mkPool] using h

/-- C9: the dead-handle retry has no bound — with a factory whose handles all
fail validation, a single `acquire` on a fresh capacity-1 pool exhausts any
amount `n` of fuel after `n` factory invocations, and under an always-failing
probe `acquire` never returns a handle, for any fuel and any starting state. -/
theorem acquire_unbounded_retry_on_dead (n : Nat) :
    (∃ p', acquire probeAllDead factoryAllOk n (mkPool 1) =
        AcquireResult.outOfFuel p' ∧ p'.factoryCalls = n) ∧
    ∀ (fuel : Nat) (p : ConnectionPool) (c : Nat) (p' : ConnectionPool),
      acquire probeAllDead factoryAllOk fuel p ≠ AcquireResult.ok c p' := by
  constructor
  · refine ⟨{ mkPool 1 with factoryCalls := n }, ?_, rfl⟩
    simpa using acquire_dead_outOfFuel_aux n 0
  · intro fuel p c p' h
    have := acquire_ok_probe_aux probeAllDead factoryAllOk fuel p c p' h
    simp [probeAllDead] at this

/-- C10: if `connection.cursor()` itself raises during the liveness probe, the
exception propagates out of `acquire`, the outstanding count is not
decremented, and the handle just popped (or just created) is neither closed
nor put back into the idle buffer — it stays counted against capacity. -/
theorem cursor_error_loses_handle (probe : Nat → ProbeResult)
    (factoryOk : Nat → Bool) (fuel : Nat) (p : ConnectionPool) :
    (∀ c rest, p.connection_queue = c :: rest → probe c = ProbeResult.cursorError →
      acquire probe factoryOk (fuel + 1) p =
        AcquireResult.cursorError { p with connection_queue := rest }) ∧
    (p.connection_queue = [] → p.size < p.maxsize → factoryOk p.factoryCalls = true →
      probe p.factoryCalls = ProbeResult.cursorError →
      acquire probe factoryOk (fuel + 1) p =
        AcquireResult.cursorError
          { p with size := p.size + 1, factoryCalls := p.factoryCalls + 1 }) := by
  constructor
  · intro c rest hq hce
    simp [acquire, acquireStep, hq, ensure_connection, hce]
  · intro hq hs hf hce
    simp [acquire, acquireStep, hq, Nat.not_le.mpr hs, hf, ensure_connection, hce]

def probeAllCursorError : Nat → ProbeResult := fun _ => ProbeResult.cursorError

def poolC10 : ConnectionPool :=
  { maxsize := 2, size := 1, connection_queue := [4], factoryCalls := 1,
    checkedOut := [], closed := [], releaseCalls := 0 }

theorem cursor_error_loses_handle_witness :
    acquire probeAllCursorError factoryAllOk 1 poolC10 =
      AcquireResult.cursorError { poolC10 with connection_queue := [] } ∧
    acquire probeAllCursorError factoryAllOk 1 (mkPool 2) =
      AcquireResult.cursorError { mkPool 2 with size := 1, factoryCalls := 1 } :=
  ⟨(cursor_error_loses_handle probeAllCursorError factoryAllOk 0 poolC10).1 4 []
      (by decide) (by decide),
   (cursor_error_loses_handle probeAllCursorError factoryAllOk 0 (mkPool 2)).2
      (by decide) (by decide) (by decide) (by decide)⟩

theorem clearGo_done_size :
    ∀ (fuel : Nat) (p p' : ConnectionPool),
      clearGo fuel p = ClearResult.done p' → p'.size = 0 := by
  intro fuel
  induction fuel with
  | zero =>
    intro p p' h
    by_cases hs : p.size = 0
    · simp [clearGo, hs] at h
      rw [← h]
      exact hs
    · simp [clearGo, hs] at h
  | succ fuel ih =>
    intro p p' h
    by_cases hs : p.size = 0
    · simp [clearGo, hs] at h
      rw [← h]
      exact hs
    · cases hq : p.connection_queue with
      | nil => simp [clearGo, hs, hq] at h
      | cons c rest =>
        simp only [clearGo, hq, if_neg hs] at h
        exact ih _ _ h

theorem clearGo_drain :
    ∀ (fuel : Nat) (p : ConnectionPool),
      p.size = p.connection_queue.length → p.size ≤ fuel →
      clearGo fuel p = ClearResult.done
        { p with size := 0, connection_queue := [],
                 closed := p.connection_queue.reverse ++ p.closed } := by
  intro fuel
  induction fuel with
  | zero =>
    intro p h1 h2
    have hs : p.size = 0 := Nat.le_zero.mp h2
    have hq : p.connection_queue = [] := List.length_eq_zero.mp (by omega)
    simp [clearGo, hs, hq]
    cases p
    simp_all
  | succ fuel ih =>
    intro p h1 h2
    by_cases hs : p.size = 0
    · have hq : p.connection_queue = [] := List.length_eq_zero.mp (by omega)
      simp [clearGo, hs, hq]
      cases p
      simp_all
    · cases hq : p.connection_queue with
      | nil => exfalso; rw [hq] at h1; simp at h1; omega
      | cons c rest =>
        have hrec := ih { p with size := p.size - 1, connection_queue := rest,
                                 closed := c :: p.closed }
          (by simp; rw [hq] at h1; simp at h1; omega) (by simp; omega)
        simp only [clearGo, if_neg hs, hq]
        rw [hrec]
        simp [hq, List.append_assoc]

/-- C6: `clear` pops idle handles one at a time, closing each popped handle
and decrementing the outstanding count once per pop, and returns only once
the count reaches zero; when every live handle is idle it drains the whole
buffer, and the next `acquire` step on the drained pool must invoke the
factory. -/
theorem clear_drains_and_next_acquire_creates (factoryOk : Nat → Bool)
    (p : ConnectionPool) (h : p.size = p.connection_queue.length)
    (hmx : 0 < p.maxsize) :
    (∀ p', clear p = ClearResult.done p' → p'.size = 0) ∧
    clear p = ClearResult.done
      { p with size := 0, connection_queue := [],
               closed := p.connection_queue.reverse ++ p.closed } ∧
    (acquireStep factoryOk
        { p with size := 0, connection_queue := [],
                 closed := p.connection_queue.reverse ++ p.closed }).pool.factoryCalls =
      p.factoryCalls + 1 := by
  refine ⟨fun p' hp' => clearGo_done_size p.size p p' hp', ?_, ?_⟩
  · exact clearGo_drain p.size p h le_rfl
  · by_cases hf : factoryOk p.factoryCalls <;>
      simp [acquireStep, Nat.not_le.mpr hmx, hf, StepResult.pool]

def poolC6 : ConnectionPool :=
  { maxsize := 2, size := 2, connection_queue := [3, 8], factoryCalls := 2,
    checkedOut := [], closed := [], releaseCalls := 0 }

theorem clear_drains_and_next_acquire_creates_witness :
    (∀ p', clear poolC6 = ClearResult.done p' → p'.size = 0) ∧
    clear poolC6 = ClearResult.done
      { poolC6 with size := 0, connection_queue := [],
                    closed := poolC6.connection_queue.reverse ++ poolC6.closed } ∧
    (acquireStep factoryAllOk
        { poolC6 with size := 0, connection_queue := [],
                      closed := poolC6.connection_queue.reverse ++
                        poolC6.closed }).pool.factoryCalls =
      poolC6.factoryCalls + 1 :=
  clear_drains_and_next_acquire_creates factoryAllOk poolC6 (by decide) (by decide)

/-- C7: `connect` invokes `release` exactly once on the acquired handle on
every exit path of the caller's scope — normal completion and a propagating
exception alike — and (whenever the buffer has room) the handle is back in the
idle buffer after the scope exits. -/
theorem connect_releases_exactly_once (probe : Nat → ProbeResult)
    (factoryOk : Nat → Bool) (fuel : Nat) (body : Outcome) (p : ConnectionPool)
    (c : Nat) (p1 : ConnectionPool)
    (hacq : acquire probe factoryOk fuel p = AcquireResult.ok c p1) :
    (connect probe factoryOk fuel body p).pool.releaseCalls = p.releaseCalls + 1 ∧
    (p1.connection_queue.length < p1.maxsize →
      c ∈ (connect probe factoryOk fuel body p).pool.connection_queue) := by
  have hrc : p1.releaseCalls = p.releaseCalls := by
    have hg := (acquire_pool_ghost probe factoryOk fuel p).2.1
    rw [hacq] at hg
    exact hg
  unfold connect
  rw [hacq]
  by_cases hfull : 0 < p1.maxsize ∧ p1.maxsize ≤ p1.connection_queue.length
  · cases body <;>
      simp [release, hfull, ConnectResult.pool, hrc]
  · cases body <;>
      simp [release, hfull, ConnectResult.pool, hrc]

def poolC7 : ConnectionPool := { mkPool 1 with size := 1, connection_queue := [4] }

theorem connect_releases_exactly_once_witness :
    (connect probeAllOk factoryAllOk 1 Outcome.raised poolC7).pool.releaseCalls =
      poolC7.releaseCalls + 1 ∧
    4 ∈ (connect probeAllOk factoryAllOk 1 Outcome.raised poolC7).pool.connection_queue :=
  ⟨(connect_releases_exactly_once probeAllOk factoryAllOk 1 Outcome.raised poolC7 4
      { poolC7 with connection_queue := [], checkedOut := [4] } (by decide)).1,
   (connect_releases_exactly_once probeAllOk factoryAllOk 1 Outcome.raised poolC7 4
      { poolC7 with connection_queue := [], checkedOut := [4] } (by decide)).2 (by decide)⟩

theorem clearGo_preserves_inv :
    ∀ (fuel : Nat) (p : ConnectionPool),
      PoolInv p → PoolInv (clearGo fuel p).pool := by
  intro fuel
  induction fuel with
  | zero =>
    intro p hp
    by_cases hs : p.size = 0 <;> simp [clearGo, hs, ClearResult.pool] <;> exact hp
  | succ fuel ih =>
    intro p hp
    by_cases hs : p.size = 0
    · simpa [clearGo, hs, ClearResult.pool] using hp
    · obtain ⟨h1, h2⟩ := hp
      cases hq : p.connection_queue with
      | nil => simpa [clearGo, hs, hq, ClearResult.pool] using ⟨h1, h2⟩
      | cons c rest =>
        have hrec := ih { p with size := p.size - 1, connection_queue := rest,
                                 closed := c :: p.closed }
          (by rw [hq] at h1; simp at h1; simp [PoolInv]; omega)
        simpa [clearGo, hs, hq] using hrec

theorem acquire_preserves_inv (probe : Nat → ProbeResult) (factoryOk : Nat → Bool)
    (hc : ∀ c, probe c ≠ ProbeResult.cursorError) :
    ∀ (fuel : Nat) (p : ConnectionPool),
      PoolInv p → PoolInv (acquire probe factoryOk fuel p).pool := by
  intro fuel
  induction fuel with
  | zero => intro p hp; exact hp
  | succ fuel ih =>
    intro p hp
    obtain ⟨h1, h2⟩ := hp
    cases hq : p.connection_queue with
    | cons c rest =>
      rw [hq] at h1
      simp at h1
      cases hpc : probe c with
      | cursorError => exact absurd hpc (hc c)
      | ok =>
        simp [acquire, acquireStep, hq, ensure_connection, hpc, AcquireResult.pool,
              PoolInv]
        omega
      | dead =>
        have hrec := ih { p with connection_queue := rest, size := p.size - 1 }
          (by simp [PoolInv]; omega)
        simp [acquire, acquireStep, hq, ensure_connection, hpc] at hrec ⊢
        exact hrec
    | nil =>
      rw [hq] at h1
      simp at h1
      by_cases hs : p.maxsize ≤ p.size
      · simp [acquire, acquireStep, hq, hs, AcquireResult.pool, PoolInv]
        omega
      · by_cases hf : factoryOk p.factoryCalls
        · cases hpc : probe p.factoryCalls with
          | cursorError => exact absurd hpc (hc p.factoryCalls)
          | ok =>
            simp [acquire, acquireStep, hq, hs, hf, ensure_connection, hpc,
                  AcquireResult.pool, PoolInv]
            omega
          | dead =>
            have hrec := ih { p with size := p.size + 1 - 1,
                                     factoryCalls := p.factoryCalls + 1 }
              (by simp [PoolInv, hq]; omega)
            simp [acquire, acquireStep, hq, hs, hf, ensure_connection, hpc] at hrec ⊢
            exact hrec
        · simp [acquire, acquireStep, hq, hs, hf, AcquireResult.pool, PoolInv]
          omega

theorem runOp_preserves_inv (probe : Nat → ProbeResult) (factoryOk : Nat → Bool)
    (hc : ∀ c, probe c ≠ ProbeResult.cursorError) (fuel : Nat) (op : Op)
    (p : ConnectionPool) (hp : PoolInv p) :
    PoolInv (runOp probe factoryOk fuel op p) := by
  cases op with
  | acquire =>
    simpa [runOp] using acquire_preserves_inv probe factoryOk hc fuel p hp
  | release i =>
    cases hg : p.checkedOut[i]? with
    | none => simpa [runOp, hg] using hp
    | some c =>
      have hmem : c ∈ p.checkedOut := List.getElem?_mem hg
      have hlen : (p.checkedOut.erase c).length = p.checkedOut.length - 1 :=
        List.length_erase_of_mem hmem
      have hpos : 0 < p.checkedOut.length :=
        List.length_pos.mpr (List.ne_nil_of_mem hmem)
      obtain ⟨h1, h2⟩ := hp
      by_cases hfull : 0 < p.maxsize ∧ p.maxsize ≤ p.connection_queue.length
      · simp [runOp, hg, release, hfull, ReleaseResult.pool, PoolInv]
        exact ⟨h1, h2⟩
      · simp [runOp, hg, release, hfull, ReleaseResult.pool, PoolInv, hlen]
        omega
  | clear =>
    simpa [runOp, clear] using clearGo_preserves_inv p.size p hp

theorem runOps_preserves_inv (probe : Nat → ProbeResult) (factoryOk : Nat → Bool)
    (hc : ∀ c, probe c ≠ ProbeResult.cursorError) (fuel : Nat) :
    ∀ (ops : List Op) (p : ConnectionPool), PoolInv p →
      PoolInv (runOps probe factoryOk fuel ops p) := by
  intro ops
  induction ops with
  | nil => intro p hp; exact hp
  | cons op ops ih =>
    intro p hp
    exact ih _ (runOp_preserves_inv probe factoryOk hc fuel op p hp)

theorem runOp_acquire_allok (probe : Nat → ProbeResult) (factoryOk : Nat → Bool)
    (hok : ∀ c, probe c = ProbeResult.ok) (hf : ∀ n, factoryOk n = true)
    (fuel : Nat) (p : ConnectionPool) (hq : p.connection_queue = [])
    (hfc : p.factoryCalls = p.size) (hle : p.size ≤ p.maxsize) :
    (runOp probe factoryOk fuel Op.acquire p).connection_queue = [] ∧
    (runOp probe factoryOk fuel Op.acquire p).factoryCalls =
      (runOp probe factoryOk fuel Op.acquire p).size ∧
    (runOp probe factoryOk fuel Op.acquire p).size ≤
      (runOp probe factoryOk fuel Op.acquire p).maxsize ∧
    (runOp probe factoryOk fuel Op.acquire p).maxsize = p.maxsize := by
  cases fuel with
  | zero => exact ⟨hq, hfc, hle, rfl⟩
  | succ fuel =>
    by_cases hs : p.maxsize ≤ p.size
    · have hred : runOp probe factoryOk (fuel + 1) Op.acquire p = p := by
        simp [runOp, acquire, acquireStep, hq, hs, AcquireResult.pool]
      rw [hred]
      exact ⟨hq, hfc, hle, rfl⟩
    · have hred : runOp probe factoryOk (fuel + 1) Op.acquire p =
          { p with size := p.size + 1, factoryCalls := p.factoryCalls + 1,
                   checkedOut := p.factoryCalls :: p.checkedOut } := by
        simp [runOp, acquire, acquireStep, hq, hs, hf p.factoryCalls,
              ensure_connection, hok p.factoryCalls, AcquireResult.pool]
      rw [hred]
      simp [hq]
      omega

theorem runOps_acquire_only (probe : Nat → ProbeResult) (factoryOk : Nat → Bool)
    (hok : ∀ c, probe c = ProbeResult.ok) (hf : ∀ n, factoryOk n = true)
    (fuel : Nat) :
    ∀ (ops : List Op) (p : ConnectionPool), (∀ o ∈ ops, o = Op.acquire) →
      p.connection_queue = [] → p.factoryCalls = p.size → p.size ≤ p.maxsize →
      (runOps probe factoryOk fuel ops p).connection_queue = [] ∧
      (runOps probe factoryOk fuel ops p).factoryCalls =
        (runOps probe factoryOk fuel ops p).size ∧
      (runOps probe factoryOk fuel ops p).size ≤
        (runOps probe factoryOk fuel ops p).maxsize ∧
      (runOps probe factoryOk fuel ops p).maxsize = p.maxsize := by
  intro ops
  induction ops with
  | nil => intro p _ hq hfc hle; exact ⟨hq, hfc, hle, rfl⟩
  | cons op ops ih =>
    intro p hall hq hfc hle
    have hop : op = Op.acquire := hall op (List.mem_cons_self op ops)
    subst hop
    obtain ⟨h1, h2, h3, h4⟩ :=
      runOp_acquire_allok probe factoryOk hok hf fuel p hq hfc hle
    have htail := ih (runOp probe factoryOk fuel Op.acquire p)
      (fun o ho => hall o (List.mem_cons_of_mem _ ho)) h1 h2 h3
    refine ⟨htail.1, htail.2.1, htail.2.2.1, ?_⟩
    simp only [runOps]
    rw [htail.2.2.2]
    exact h4

/-- C1: starting from a fresh pool, every sequence of `acquire`, `release` and
`clear` operations (in an environment where the probe itself never raises at
cursor creation) keeps the accounting invariant: the outstanding count equals
checked-out plus idle handles and never exceeds `maxsize`; and when every
handle validates and the factory never raises, a sequence consisting only of
`acquire` calls causes at most `maxsize` factory invocations in total. -/
theorem pool_invariant_and_capacity_bound (probe : Nat → ProbeResult)
    (factoryOk : Nat → Bool) (hc : ∀ c, probe c ≠ ProbeResult.cursorError)
    (fuel : Nat) (mx : Nat) (ops : List Op) :
    PoolInv (runOps probe factoryOk fuel ops (mkPool mx)) ∧
    ((∀ c, probe c = ProbeResult.ok) → (∀ n, factoryOk n = true) →
      (∀ o ∈ ops, o = Op.acquire) →
      (runOps probe factoryOk fuel ops (mkPool mx)).factoryCalls ≤ mx) := by
  constructor
  · exact runOps_preserves_inv probe factoryOk hc fuel ops (mkPool mx)
      ⟨rfl, Nat.zero_le mx⟩
  · intro hok hf hall
    obtain ⟨-, hfc, hle, hmx⟩ :=
      runOps_acquire_only probe factoryOk hok hf fuel ops (mkPool mx) hall rfl rfl
        (Nat.zero_le mx)
    have hmk : (mkPool mx).maxsize = mx := rfl
    omega

def opsC1 : List Op := [Op.acquire, Op.acquire, Op.acquire]

theorem pool_invariant_and_capacity_bound_witness :
    PoolInv (runOps probeAllOk factoryAllOk 1 opsC1 (mkPool 2)) ∧
    (runOps probeAllOk factoryAllOk 1 opsC1 (mkPool 2)).factoryCalls ≤ 2 := by
  have h := pool_invariant_and_capacity_bound probeAllOk factoryAllOk
    (fun c hcc => ProbeResult.noConfusion hcc) 1 2 opsC1
  exact ⟨h.1, h.2 (fun c => rfl) (fun n => rfl) (by decide)⟩
